import Mathlib

/-!
Verification of the ML-bot-agents multi-agent orchestration system.

Shallow embedding of the pure decision logic of the repository:
`src/utils/backlog_manager.py`, `src/utils/agent_tools.py`,
`src/utils/memory.py`, `src/utils/voting.py`, `src/utils/llm_client.py`
and `src/agents/base_agent.py`.  JSON persistence is modelled as explicit
Lean data (the backlog file content is a `List Task`, the votes file a
`Proposal`, agent memory a `List FailureRecord`); network and subprocess
effects are modelled as oracle inputs (traces of outcomes).
-/

/-- Boolean test that `p` is a leading segment of `s`. -/
def leadsList (p s : List Char) : Bool :=
  match p, s with
  | [], _ => true
  | _ :: _, [] => false
  | a :: as, b :: bs => a == b && leadsList as bs

/-- Boolean test that `p` occurs contiguously inside `s`. -/
def infixList (p s : List Char) : Bool :=
  match s with
  | [] => p.isEmpty
  | _ :: rest => leadsList p s || infixList p rest

/-- Substring test on strings: Python `p in s`. -/
def substrOf (p s : String) : Bool :=
  infixList p.toList s.toList

namespace Backlog

/-- One backlog task, as built by `BacklogManager.add_task`
(backlog_manager.py lines 41-51).  `depends_on` is `None` or a task id;
`completed_at` is `None` until the task is marked done. -/
structure Task where
  id : Nat
  title : String
  description : String
  assigned_to : String
  status : String
  priority : String
  depends_on : Option Nat
  created_at : String
  completed_at : Option String
deriving Repr, DecidableEq

/-- Priority rank used by `get_next_task` (line 61):
`priority_order = {"critical": 0, "high": 1, "medium": 2, "low": 3}`,
read with `.get(priority, 2)`, so any unknown priority ranks 2. -/
def priorityRank (p : String) : Nat :=
  if p = "critical" then 0
  else if p = "high" then 1
  else if p = "medium" then 2
  else if p = "low" then 3
  else 2

/-- The dependency gate of `get_next_task` (lines 67-70):
`if task["depends_on"]:` is Python truthiness, so `depends_on = 0` (like
`None`) disables the check; otherwise `next(t for t in tasks if t["id"] ==
task["depends_on"])` fetches the first task with that id and the candidate
is skipped iff that task exists and its status is not `"done"`. -/
def depBlocked (tasks : List Task) (t : Task) : Bool :=
  match t.depends_on with
  | none => false
  | some d =>
    if d = 0 then false
    else
      match tasks.find? (fun u => u.id == d) with
      | none => false
      | some dep => dep.status != "done"

/-- Candidate filter of `get_next_task` (line 65): assigned to the agent,
status `todo`, and not blocked by a dependency. -/
def isCandidate (tasks : List Task) (agent : String) (t : Task) : Bool :=
  t.assigned_to == agent && t.status == "todo" && !depBlocked tasks t

/-- The candidate list collected by the scan loop (lines 63-71), in
original backlog (insertion) order. -/
def candidatesFor (tasks : List Task) (agent : String) : List Task :=
  tasks.filter (isCandidate tasks agent)

/-- One step of a stable insertion sort keyed by `priorityRank`:
an element moves past exactly the strictly smaller keys, so equal keys
keep their relative order, matching Python `list.sort` stability. -/
def insertByRank (x : Task) : List Task → List Task
  | [] => [x]
  | y :: ys =>
    if priorityRank y.priority < priorityRank x.priority then
      y :: insertByRank x ys
    else
      x :: y :: ys

/-- Stable sort by priority rank, modelling
`candidates.sort(key=lambda t: priority_order.get(t["priority"], 2))`
(line 76).  Python Timsort is stable; this insertion sort is too. -/
def sortByRank : List Task → List Task
  | [] => []
  | x :: xs => insertByRank x (sortByRank xs)

/-- `BacklogManager.get_next_task` (lines 58-77): filter, sort by priority
rank, return the first survivor (`candidates[0]`), or `None` if no
candidate remains. -/
def get_next_task (tasks : List Task) (agent : String) : Option Task :=
  (sortByRank (candidatesFor tasks agent)).head?

/-- The earliest minimal-rank element of a list (reference function used
to characterise the head of the stable sort). -/
def firstMinRank : List Task → Option Task
  | [] => none
  | x :: xs =>
    match firstMinRank xs with
    | none => some x
    | some m =>
      if priorityRank x.priority ≤ priorityRank m.priority then some x
      else some m

/-- Message returned by `update_status` on success (line 88). -/
def statusMsg (task_id : Nat) (status : String) : String :=
  s!"Task #{task_id} status -> {status}"

/-- Message returned by `update_status` when the id is absent (line 89). -/
def notFoundMsg (task_id : Nat) : String :=
  s!"Task #{task_id} not found."

/-- `BacklogManager.update_status` (lines 79-89): walk the task list, and
on the first task whose id matches, set the status, stamp `completed_at`
exactly when the new status is `"done"`, and stop.  Returns the updated
list and the message. -/
def update_status (tasks : List Task) (task_id : Nat) (status : String)
    (now : String) : List Task × String :=
  match tasks with
  | [] => ([], notFoundMsg task_id)
  | t :: ts =>
    if t.id == task_id then
      (({ t with
          status := status,
          completed_at := if status = "done" then some now else t.completed_at }) :: ts,
        statusMsg task_id status)
    else
      let r := update_status ts task_id status now
      (t :: r.1, r.2)

end Backlog

namespace Backlog

/-- `firstMinRank` returns `none` exactly on the empty list. -/
theorem firstMinRank_none_iff {l : List Task} : firstMinRank l = none ↔ l = [] := by
  cases l with
  | nil => simp [firstMinRank]
  | cons x xs =>
    simp only [firstMinRank]
    cases h' : firstMinRank xs with
    | none => simp
    | some m =>
      by_cases hc : priorityRank x.priority ≤ priorityRank m.priority <;> simp [hc]

/-- Head of one stable insertion step. -/
theorem insertByRank_head? (x : Task) (l : List Task) :
    (insertByRank x l).head? =
      match l.head? with
      | none => some x
      | some y =>
        if priorityRank y.priority < priorityRank x.priority then some y else some x := by
  cases l with
  | nil => rfl
  | cons y ys =>
    by_cases hc : priorityRank y.priority < priorityRank x.priority <;>
      simp [insertByRank, hc]

/-- The head of the stable sort is the earliest minimal-rank element. -/
theorem sortByRank_head? (l : List Task) : (sortByRank l).head? = firstMinRank l := by
  induction l with
  | nil => rfl
  | cons x xs ih =>
    simp only [sortByRank, firstMinRank, insertByRank_head?, ih]
    cases h' : firstMinRank xs with
    | none => simp
    | some m =>
      by_cases hc : priorityRank x.priority ≤ priorityRank m.priority
      · simp [Nat.not_lt.mpr hc, hc]
      · simp [Nat.lt_of_not_le hc, hc]

/-- `firstMinRank` picks an element of the list. -/
theorem firstMinRank_mem (l : List Task) :
    ∀ t, firstMinRank l = some t → t ∈ l := by
  induction l with
  | nil => intro t h; simp [firstMinRank] at h
  | cons x xs ih =>
    intro t h
    simp only [firstMinRank] at h
    cases h' : firstMinRank xs with
    | none =>
      rw [h'] at h
      obtain rfl := Option.some.inj h
      exact List.mem_cons_self _ _
    | some m =>
      rw [h'] at h
      have h2 : (if priorityRank x.priority ≤ priorityRank m.priority then some x
          else some m) = some t := h
      by_cases hc : priorityRank x.priority ≤ priorityRank m.priority
      · rw [if_pos hc] at h2
        obtain rfl := Option.some.inj h2
        exact List.mem_cons_self _ _
      · rw [if_neg hc] at h2
        obtain rfl := Option.some.inj h2
        exact List.mem_cons_of_mem _ (ih _ h')

/-- `firstMinRank` picks an element of minimal priority rank. -/
theorem firstMinRank_le (l : List Task) :
    ∀ t, firstMinRank l = some t →
      ∀ u ∈ l, priorityRank t.priority ≤ priorityRank u.priority := by
  induction l with
  | nil => intro t h; simp [firstMinRank] at h
  | cons x xs ih =>
    intro t h u hu
    simp only [firstMinRank] at h
    cases h' : firstMinRank xs with
    | none =>
      rw [h'] at h
      obtain rfl := Option.some.inj h
      have hxs : xs = [] := firstMinRank_none_iff.mp h'
      subst hxs
      rcases List.mem_cons.mp hu with rfl | habs
      · exact Nat.le_refl _
      · simp at habs
    | some m =>
      rw [h'] at h
      have h2 : (if priorityRank x.priority ≤ priorityRank m.priority then some x
          else some m) = some t := h
      by_cases hc : priorityRank x.priority ≤ priorityRank m.priority
      · rw [if_pos hc] at h2
        obtain rfl := Option.some.inj h2
        rcases List.mem_cons.mp hu with rfl | hu'
        · exact Nat.le_refl _
        · exact Nat.le_trans hc (ih m h' u hu')
      · rw [if_neg hc] at h2
        obtain rfl := Option.some.inj h2
        rcases List.mem_cons.mp hu with rfl | hu'
        · exact Nat.le_of_lt (Nat.lt_of_not_le hc)
        · exact ih m h' u hu'

/-- `firstMinRank` picks the EARLIEST minimal-rank element: everything
before it in the list has strictly larger rank. -/
theorem firstMinRank_first (l : List Task) :
    ∀ t, firstMinRank l = some t →
      ∃ l₁ l₂, l = l₁ ++ t :: l₂ ∧
        ∀ u ∈ l₁, priorityRank t.priority < priorityRank u.priority := by
  induction l with
  | nil => intro t h; simp [firstMinRank] at h
  | cons x xs ih =>
    intro t h
    simp only [firstMinRank] at h
    cases h' : firstMinRank xs with
    | none =>
      rw [h'] at h
      obtain rfl := Option.some.inj h
      exact ⟨[], xs, rfl, by simp⟩
    | some m =>
      rw [h'] at h
      have h2 : (if priorityRank x.priority ≤ priorityRank m.priority then some x
          else some m) = some t := h
      by_cases hc : priorityRank x.priority ≤ priorityRank m.priority
      · rw [if_pos hc] at h2
        obtain rfl := Option.some.inj h2
        exact ⟨[], xs, rfl, by simp⟩
      · rw [if_neg hc] at h2
        obtain rfl := Option.some.inj h2
        obtain ⟨l₁, l₂, heq, hlt⟩ := ih m h'
        refine ⟨x :: l₁, l₂, by rw [heq, List.cons_append], ?_⟩
        intro u hu
        rcases List.mem_cons.mp hu with rfl | hu'
        · exact Nat.lt_of_not_le hc
        · exact hlt u hu'

end Backlog

namespace Backlog

/-- Shorthand for building a task with the fields the claims exercise. -/
def mkTask (id : Nat) (agent status priority : String) (dep : Option Nat) : Task :=
  ⟨id, "", "", agent, status, priority, dep, "", none⟩

/-- C1 (amended): if `get_next_task` returns a task `T` with
`depends_on = D`, `D ≠ 0`, task ids are pairwise distinct, and a task with
id `D` exists in the backlog, then that task has status `"done"`.  The
`D ≠ 0` guard is forced by Python truthiness of `if task["depends_on"]:`,
which treats a `depends_on` of `0` like `None` and skips the dependency
check entirely. -/
theorem get_next_task_dep_done (tasks : List Task) (agent : String)
    (t u : Task) (d : Nat)
    (hnodup : (tasks.map Task.id).Nodup)
    (h : get_next_task tasks agent = some t)
    (hdep : t.depends_on = some d) (hd : d ≠ 0)
    (hu : u ∈ tasks) (hid : u.id = d) :
    u.status = "done" := by
  have hf : firstMinRank (candidatesFor tasks agent) = some t := by
    rw [← sortByRank_head?]; exact h
  have hmem := firstMinRank_mem _ t hf
  have hcand : isCandidate tasks agent t = true := (List.mem_filter.mp hmem).2
  have hnb : depBlocked tasks t = false := by
    simp only [isCandidate, Bool.and_eq_true, Bool.not_eq_true'] at hcand
    exact hcand.2
  have hsome : (tasks.find? (fun v => v.id == d)).isSome := by
    rw [List.find?_isSome]
    exact ⟨u, hu, by simp [hid]⟩
  obtain ⟨dep, hfind⟩ := Option.isSome_iff_exists.mp hsome
  have hnb2 : (if d = 0 then false
      else match tasks.find? (fun v => v.id == d) with
        | none => false
        | some dep => dep.status != "done") = false := by
    rw [depBlocked, hdep] at hnb
    exact hnb
  rw [if_neg hd, hfind] at hnb2
  have hdstat : dep.status = "done" := by
    simpa using hnb2
  have hdepid : dep.id = d := by
    have := List.find?_some hfind
    simpa using this
  have huid : u = dep :=
    List.inj_on_of_nodup_map hnodup hu (List.mem_of_find?_eq_some hfind)
      (by rw [hid, hdepid])
  rw [huid, hdstat]

/-- C1 witness: a two-task backlog where task 2 depends on task 1, which
is done; `get_next_task` returns task 2 and the amended theorem applies. -/
theorem get_next_task_dep_done_witness :
    (((([mkTask 1 "b" "done" "medium" none,
         mkTask 2 "a" "todo" "medium" (some 1)].map Task.id).Nodup) ∧
      get_next_task [mkTask 1 "b" "done" "medium" none,
        mkTask 2 "a" "todo" "medium" (some 1)] "a"
        = some (mkTask 2 "a" "todo" "medium" (some 1)) ∧
      (mkTask 2 "a" "todo" "medium" (some 1)).depends_on = some 1 ∧
      (1 : Nat) ≠ 0 ∧
      mkTask 1 "b" "done" "medium" none ∈ [mkTask 1 "b" "done" "medium" none,
        mkTask 2 "a" "todo" "medium" (some 1)] ∧
      (mkTask 1 "b" "done" "medium" none).id = 1) ∧
     (mkTask 1 "b" "done" "medium" none).status = "done") :=
  ⟨⟨by decide, by decide, by decide, by decide, by decide, by decide⟩,
   get_next_task_dep_done
     [mkTask 1 "b" "done" "medium" none, mkTask 2 "a" "todo" "medium" (some 1)]
     "a" (mkTask 2 "a" "todo" "medium" (some 1))
     (mkTask 1 "b" "done" "medium" none) 1
     (by decide) (by decide) (by decide) (by decide) (by decide) (by decide)⟩

/-- C1 counterexample: with a backlog holding a task of id 0 whose status
is `"todo"`, a task depending on id 0 is still returned by
`get_next_task`, because `if task["depends_on"]:` treats `0` as falsy.
So the claim as stated (existing dependency must be done) fails. -/
theorem get_next_task_dep_zero_cex :
    get_next_task [mkTask 0 "b" "todo" "medium" none,
        mkTask 2 "a" "todo" "medium" (some 0)] "a"
      = some (mkTask 2 "a" "todo" "medium" (some 0)) ∧
    (mkTask 2 "a" "todo" "medium" (some 0)).depends_on = some 0 ∧
    mkTask 0 "b" "todo" "medium" none ∈ [mkTask 0 "b" "todo" "medium" none,
      mkTask 2 "a" "todo" "medium" (some 0)] ∧
    (mkTask 0 "b" "todo" "medium" none).id = 0 ∧
    (mkTask 0 "b" "todo" "medium" none).status ≠ "done" := by
  decide

/-- C6: any task returned by `get_next_task` is a candidate (assigned,
todo, dependency-satisfied) of minimal priority rank under
critical=0, high=1, medium=2, low=3, unknown=2, and it is the EARLIEST
such candidate in backlog (insertion) order: everything before it in the
candidate list has strictly larger rank. -/
theorem get_next_task_priority (tasks : List Task) (agent : String) (t : Task)
    (h : get_next_task tasks agent = some t) :
    t ∈ candidatesFor tasks agent ∧
    (∀ u ∈ candidatesFor tasks agent,
      priorityRank t.priority ≤ priorityRank u.priority) ∧
    ∃ l₁ l₂, candidatesFor tasks agent = l₁ ++ t :: l₂ ∧
      ∀ u ∈ l₁, priorityRank t.priority < priorityRank u.priority := by
  have hf : firstMinRank (candidatesFor tasks agent) = some t := by
    rw [← sortByRank_head?]; exact h
  exact ⟨firstMinRank_mem _ t hf, firstMinRank_le _ t hf, firstMinRank_first _ t hf⟩

/-- C6 witness: a `"low"` and a `"critical"` task for the same agent, both
runnable; `get_next_task` returns the critical one and the minimality
conclusions hold for it. -/
theorem get_next_task_priority_witness :
    get_next_task [mkTask 1 "a" "todo" "low" none,
        mkTask 2 "a" "todo" "critical" none] "a"
      = some (mkTask 2 "a" "todo" "critical" none) ∧
    (mkTask 2 "a" "todo" "critical" none
        ∈ candidatesFor [mkTask 1 "a" "todo" "low" none,
            mkTask 2 "a" "todo" "critical" none] "a" ∧
     (∀ u ∈ candidatesFor [mkTask 1 "a" "todo" "low" none,
          mkTask 2 "a" "todo" "critical" none] "a",
        priorityRank (mkTask 2 "a" "todo" "critical" none).priority
          ≤ priorityRank u.priority) ∧
     ∃ l₁ l₂, candidatesFor [mkTask 1 "a" "todo" "low" none,
          mkTask 2 "a" "todo" "critical" none] "a"
        = l₁ ++ mkTask 2 "a" "todo" "critical" none :: l₂ ∧
        ∀ u ∈ l₁, priorityRank (mkTask 2 "a" "todo" "critical" none).priority
          < priorityRank u.priority) :=
  ⟨by decide, get_next_task_priority _ "a" _ (by decide)⟩

/-- C10: a `todo` task whose `depends_on` names an id matching no task in
the backlog is treated as runnable: it survives the candidate filter, and
`get_next_task` then returns some task.  The dependency filter only skips
a task when the referenced task exists and is not done. -/
theorem get_next_task_dangling_dep (tasks : List Task) (agent : String)
    (t : Task) (d : Nat)
    (hmem : t ∈ tasks) (ha : t.assigned_to = agent) (hs : t.status = "todo")
    (hdep : t.depends_on = some d)
    (hnone : ∀ u ∈ tasks, u.id ≠ d) :
    t ∈ candidatesFor tasks agent ∧ (get_next_task tasks agent).isSome := by
  have hnb : depBlocked tasks t = false := by
    have hfind : tasks.find? (fun v => v.id == d) = none := by
      rw [List.find?_eq_none]
      intro x hx
      simp [hnone x hx]
    by_cases h0 : d = 0
    · simp [depBlocked, hdep, h0]
    · simp [depBlocked, hdep, h0, hfind]
  have hc : isCandidate tasks agent t = true := by
    simp [isCandidate, ha, hs, hnb]
  have hcf : t ∈ candidatesFor tasks agent := List.mem_filter.mpr ⟨hmem, hc⟩
  refine ⟨hcf, ?_⟩
  rw [get_next_task, sortByRank_head?]
  cases hfm : firstMinRank (candidatesFor tasks agent) with
  | none =>
    rw [firstMinRank_none_iff.mp hfm] at hcf
    simp at hcf
  | some m => simp

/-- C10 witness: a single task depending on the absent id 99 is returned
by `get_next_task`. -/
theorem get_next_task_dangling_dep_witness :
    (mkTask 5 "a" "todo" "medium" (some 99) ∈ [mkTask 5 "a" "todo" "medium" (some 99)] ∧
     (mkTask 5 "a" "todo" "medium" (some 99)).assigned_to = "a" ∧
     (mkTask 5 "a" "todo" "medium" (some 99)).status = "todo" ∧
     (mkTask 5 "a" "todo" "medium" (some 99)).depends_on = some 99 ∧
     (∀ u ∈ [mkTask 5 "a" "todo" "medium" (some 99)], u.id ≠ 99)) ∧
    (mkTask 5 "a" "todo" "medium" (some 99)
        ∈ candidatesFor [mkTask 5 "a" "todo" "medium" (some 99)] "a" ∧
     (get_next_task [mkTask 5 "a" "todo" "medium" (some 99)] "a").isSome) :=
  ⟨⟨by decide, by decide, by decide, by decide, by decide⟩,
   get_next_task_dangling_dep _ "a" _ 99
     (by decide) (by decide) (by decide) (by decide) (by decide)⟩

/-- C7: `update_status(id, s)` rewrites exactly the first task whose id
matches: its status becomes `s`, its `completed_at` is stamped with the
current time exactly when `s = "done"` and kept as-is otherwise, every
other field and every other task is untouched, and no transition is
validated (the theorem holds for arbitrary current status and arbitrary
`s`, e.g. `"done" → "todo"`). -/
theorem update_status_spec (l₁ l₂ : List Task) (t : Task) (task_id : Nat)
    (s now : String)
    (hid : t.id = task_id) (hbefore : ∀ u ∈ l₁, u.id ≠ task_id) :
    update_status (l₁ ++ t :: l₂) task_id s now =
      (l₁ ++ ({ t with
                status := s,
                completed_at := if s = "done" then some now
                  else t.completed_at }) :: l₂,
       statusMsg task_id s) := by
  induction l₁ with
  | nil =>
    simp only [List.nil_append, update_status]
    rw [if_pos (by simp [hid])]
  | cons u us ih =>
    have hne : (u.id == task_id) = false := by
      simp [hbefore u (List.mem_cons_self u us)]
    simp only [List.cons_append, update_status, hne, Bool.false_eq_true,
      if_false, List.append_eq]
    rw [ih (fun v hv => hbefore v (List.mem_cons_of_mem u hv))]

/-- C7 witness: a `"done" → "todo"` transition on a completed task is
permitted; the status changes, `completed_at` keeps its old stamp, and
nothing else changes. -/
theorem update_status_spec_witness :
    ((⟨1, "x", "", "a", "done", "medium", none, "", some "t0"⟩ : Task).id = 1 ∧
     (∀ u ∈ ([] : List Task), u.id ≠ 1)) ∧
    update_status ([] ++ (⟨1, "x", "", "a", "done", "medium", none, "", some "t0"⟩ : Task) :: [])
        1 "todo" "now" =
      ([] ++ ({ (⟨1, "x", "", "a", "done", "medium", none, "", some "t0"⟩ : Task) with
                status := "todo",
                completed_at := if "todo" = "done" then some "now"
                  else some "t0" }) :: [],
       statusMsg 1 "todo") :=
  ⟨⟨rfl, by simp⟩,
   update_status_spec [] [] ⟨1, "x", "", "a", "done", "medium", none, "", some "t0"⟩
     1 "todo" "now" rfl (by simp)⟩

end Backlog

/-- A nonempty string stays nonempty after appending on the right. -/
theorem append_ne_empty_left (s t : String) (h : s ≠ "") : s ++ t ≠ "" := by
  intro he
  apply h
  apply String.ext
  have := congrArg String.data he
  rw [String.data_append] at this
  have hs := List.append_eq_nil.mp this
  exact hs.1

/-- A leading-segment test survives appending on the right. -/
theorem leadsList_append (p x y : List Char) (h : leadsList p x = true) :
    leadsList p (x ++ y) = true := by
  induction p generalizing x with
  | nil => rfl
  | cons a as ih =>
    cases x with
    | nil => simp [leadsList] at h
    | cons b bs =>
      simp only [leadsList, Bool.and_eq_true] at h
      simp only [List.cons_append, leadsList, Bool.and_eq_true]
      exact ⟨h.1, ih bs h.2⟩

/-- Python slicing `s[:n]`: the first `n` characters of `s`. -/
def takeB (s : String) (n : Nat) : String :=
  String.mk (s.toList.take n)

namespace Memory

/-- One failure record, as appended by `AgentMemory.remember_failure`
(memory.py lines 78-83): the task title, the error truncated to 500
characters, the failing round, and a timestamp. -/
structure FailureRecord where
  task : String
  error : String
  round : Nat
  timestamp : String
deriving Repr, DecidableEq

/-- `AgentMemory.remember_failure` (memory.py lines 73-86) acting on the
`failures` list of `self.data`: append the new record, then keep only the
last 30 entries (`self.data["failures"][-30:]`). -/
def remember_failure (failures : List FailureRecord) (task_title error : String)
    (round_failed : Nat) (now : String) : List FailureRecord :=
  let appended := failures ++ [⟨task_title, takeB error 500, round_failed, now⟩]
  appended.drop (appended.length - 30)

/-- C9: after every `remember_failure` call the stored failures list has
at most 30 records, its length is exactly `min (previous + 1) 30`, it is a
suffix of the previous records followed by the new one (so it holds the
most recently recorded entries, the new `{task, error, round, timestamp}`
record last), and below the cap nothing is dropped. -/
theorem remember_failure_cap (fs : List FailureRecord) (task err : String)
    (r : Nat) (now : String) :
    (remember_failure fs task err r now).length ≤ 30 ∧
    (remember_failure fs task err r now).length = min (fs.length + 1) 30 ∧
    (remember_failure fs task err r now).IsSuffix
      (fs ++ [⟨task, takeB err 500, r, now⟩]) ∧
    (fs.length ≤ 29 →
      remember_failure fs task err r now = fs ++ [⟨task, takeB err 500, r, now⟩]) := by
  have hlen : (fs ++ [(⟨task, takeB err 500, r, now⟩ : FailureRecord)]).length
      = fs.length + 1 := by
    simp
  refine ⟨?_, ?_, ?_, ?_⟩
  · simp only [remember_failure, List.length_drop, hlen]
    omega
  · simp only [remember_failure, List.length_drop, hlen]
    omega
  · exact List.drop_suffix _ _
  · intro hle
    simp only [remember_failure, hlen]
    have : fs.length + 1 - 30 = 0 := by omega
    rw [this, List.drop_zero]

/-- C9 witness: recording a failure into an empty memory stores exactly
the one new record. -/
theorem remember_failure_cap_witness :
    (remember_failure [] "task" "err" 1 "ts").length ≤ 30 ∧
    (remember_failure [] "task" "err" 1 "ts").length
      = min (([] : List FailureRecord).length + 1) 30 ∧
    (remember_failure [] "task" "err" 1 "ts").IsSuffix
      ([] ++ [⟨"task", takeB "err" 500, 1, "ts"⟩]) ∧
    (([] : List FailureRecord).length ≤ 29 →
      remember_failure [] "task" "err" 1 "ts"
        = [] ++ [⟨"task", takeB "err" 500, 1, "ts"⟩]) :=
  remember_failure_cap [] "task" "err" 1 "ts"

end Memory

namespace Voting

/-- One cast vote, as stored by `VotingSystem.vote` (voting.py lines
77-81). -/
structure VoteRecord where
  decision : String
  reason : String
  voted_at : String
deriving Repr, DecidableEq

/-- One proposal, as built by `VotingSystem.propose` (voting.py lines
44-55).  The Python `votes` dict keyed by agent name is modelled as an
association list. -/
structure Proposal where
  id : Nat
  title : String
  description : String
  proposer : String
  voters : List String
  votes : List (String × VoteRecord)
  status : String
  created_at : String
  closed_at : Option String
  result : Option String
deriving Repr, DecidableEq

/-- Count of `"approve"` decisions among the cast votes (lines 100-101). -/
def approve_count (p : Proposal) : Nat :=
  (p.votes.filter (fun v => v.2.decision == "approve")).length

/-- Count of `"reject"` decisions among the cast votes (lines 102-103). -/
def reject_count (p : Proposal) : Nat :=
  (p.votes.filter (fun v => v.2.decision == "reject")).length

/-- The pending message of `tally` (line 120):
`f"Pending ({approvals} approve, {rejections} reject, {remaining} remaining)"`. -/
def pendingMsg (a r rem : Nat) : String :=
  "Pending (" ++ toString a ++ " approve, " ++ toString r ++ " reject, "
    ++ toString rem ++ " remaining)"

/-- The closing announcement of `tally` (line 127). -/
def finalMsg (pid : Nat) (title res : String) (a v : Nat) : String :=
  "📊 Proposal #" ++ toString pid ++ " \x27" ++ title ++ "\x27: " ++ res
    ++ " (" ++ toString a ++ "/" ++ toString v ++ " approved)"

/-- `VotingSystem.tally` (voting.py lines 94-131) acting on the matched
proposal (the enclosing search over `data["proposals"]` by id is elided).
The Python threshold comparison `approvals > total_voters / 2` is float
division of naturals, which is exact here, so it is embedded as
`2 * approvals > total_voters`.  The denominator is the registered voter
list, not the votes actually cast.  Returns the updated proposal and the
returned string. -/
def tally (p : Proposal) (now : String) : Proposal × String :=
  let approvals := approve_count p
  let rejections := reject_count p
  let total_voters := p.voters.length
  if 2 * approvals > total_voters then
    ({ p with
       status := "passed",
       result := some "APPROVED",
       closed_at := some now },
     finalMsg p.id p.title "APPROVED" approvals total_voters)
  else if 2 * rejections > total_voters then
    ({ p with
       status := "rejected",
       result := some "REJECTED",
       closed_at := some now },
     finalMsg p.id p.title "REJECTED" approvals total_voters)
  else if p.votes.length ≥ total_voters then
    ({ p with
       status := if approvals ≥ rejections then "passed" else "rejected",
       result := some (if approvals ≥ rejections then "APPROVED (tie-break)"
         else "REJECTED (tie-break)"),
       closed_at := some now },
     finalMsg p.id p.title
       (if approvals ≥ rejections then "APPROVED (tie-break)"
         else "REJECTED (tie-break)")
       approvals total_voters)
  else
    let msg := pendingMsg approvals rejections (total_voters - p.votes.length)
    ({ p with result := some msg }, msg)

/-- Two disjoint boolean filters never keep more than the whole list. -/
theorem length_filter_two_le {α : Type} (l : List α) (f g : α → Bool)
    (h : ∀ x ∈ l, ¬(f x = true ∧ g x = true)) :
    (l.filter f).length + (l.filter g).length ≤ l.length := by
  induction l with
  | nil => simp
  | cons x xs ih =>
    have hx := h x (List.mem_cons_self x xs)
    have ihx := ih (fun y hy => h y (List.mem_cons_of_mem x hy))
    by_cases hf : f x = true
    · have hg : g x = false := by
        cases hgx : g x
        · rfl
        · exact absurd ⟨hf, hgx⟩ hx
      simp [List.filter_cons, hf, hg]
      omega
    · have hf' : f x = false := by
        cases hfx : f x
        · rfl
        · exact absurd hfx hf
      by_cases hg : g x = true
      · simp [List.filter_cons, hf', hg]
        omega
      · have hg' : g x = false := by
          cases hgx : g x
          · rfl
          · exact absurd hgx hg
        simp [List.filter_cons, hf', hg']
        omega

/-- Under the invariant maintained by `VotingSystem.vote` (each vote comes
from a distinct registered voter), approvals plus rejections cannot exceed
the registered voter count. -/
theorem approve_add_reject_le (p : Proposal)
    (hnodup : (p.votes.map Prod.fst).Nodup)
    (hsub : ∀ kv ∈ p.votes, kv.1 ∈ p.voters) :
    approve_count p + reject_count p ≤ p.voters.length := by
  have h1 : approve_count p + reject_count p ≤ p.votes.length := by
    apply length_filter_two_le
    intro kv _ hboth
    have ha := of_decide_eq_true hboth.1
    have hr := of_decide_eq_true hboth.2
    rw [ha] at hr
    exact absurd hr (by decide)
  have h2 : p.votes.length ≤ p.voters.length := by
    have hkeys : (p.votes.map Prod.fst) ⊆ p.voters := by
      intro k hk
      obtain ⟨kv, hkv, rfl⟩ := List.mem_map.mp hk
      exact hsub kv hkv
    have := (List.subperm_of_subset hnodup hkeys).length_le
    simpa using this
  omega

end Voting

namespace Voting

/-- C8: with the vote invariant maintained by `VotingSystem.vote` (each
cast vote from a distinct registered voter), `tally` declares APPROVED iff
approvals exceed half the REGISTERED voter list (not the votes cast), and
REJECTED iff rejections do; when every registered voter has voted and
neither side exceeds half, the proposal is closed by the tie-break rule
(passed iff approvals ≥ rejections); otherwise it returns the Pending
message with the remaining-voter count, stores it as the result, and
leaves the proposal open. -/
theorem tally_majority (p : Proposal) (now : String)
    (hopen : p.status = "open")
    (hnodup : (p.votes.map Prod.fst).Nodup)
    (hsub : ∀ kv ∈ p.votes, kv.1 ∈ p.voters) :
    (((tally p now).1.status = "passed" ∧
        (tally p now).1.result = some "APPROVED")
      ↔ 2 * approve_count p > p.voters.length) ∧
    (((tally p now).1.status = "rejected" ∧
        (tally p now).1.result = some "REJECTED")
      ↔ 2 * reject_count p > p.voters.length) ∧
    (¬(2 * approve_count p > p.voters.length) →
     ¬(2 * reject_count p > p.voters.length) →
     p.votes.length ≥ p.voters.length →
      (tally p now).1.closed_at = some now ∧
      ((tally p now).1.status = "passed" ↔ approve_count p ≥ reject_count p)) ∧
    (¬(2 * approve_count p > p.voters.length) →
     ¬(2 * reject_count p > p.voters.length) →
     p.votes.length < p.voters.length →
      (tally p now).1.status = "open" ∧
      (tally p now).1.closed_at = p.closed_at ∧
      (tally p now).2 = pendingMsg (approve_count p) (reject_count p)
        (p.voters.length - p.votes.length) ∧
      (tally p now).1.result = some ((tally p now).2)) := by
  have hAR := approve_add_reject_le p hnodup hsub
  by_cases h1 : 2 * approve_count p > p.voters.length
  · have h2 : ¬(2 * reject_count p > p.voters.length) := by omega
    simp only [tally]
    rw [if_pos h1]
    refine ⟨by simp [h1], by simp [h2], ?_, ?_⟩
    · intro hna _ _
      exact absurd h1 hna
    · intro hna _ _
      exact absurd h1 hna
  · by_cases h2 : 2 * reject_count p > p.voters.length
    · simp only [tally]
      rw [if_neg h1, if_pos h2]
      refine ⟨by simp [h1], by simp [h2], ?_, ?_⟩
      · intro _ hnr _
        exact absurd h2 hnr
      · intro _ hnr _
        exact absurd h2 hnr
    · by_cases h3 : p.votes.length ≥ p.voters.length
      · simp only [tally]
        rw [if_neg h1, if_neg h2, if_pos h3]
        by_cases hge : approve_count p ≥ reject_count p
        · refine ⟨by simp [hge, h1], by simp [hge, h2], ?_, ?_⟩
          · intro _ _ _
            exact ⟨rfl, by simp [hge]⟩
          · intro _ _ hlt
            omega
        · refine ⟨by simp [hge, h1], by simp [hge, h2], ?_, ?_⟩
          · intro _ _ _
            exact ⟨rfl, by simp [hge]⟩
          · intro _ _ hlt
            omega
      · simp only [tally]
        rw [if_neg h1, if_neg h2, if_neg h3]
        refine ⟨by simp [hopen, h1], by simp [hopen, h2], ?_, ?_⟩
        · intro _ _ hge
          omega
        · intro _ _ _
          exact ⟨hopen, rfl, rfl, rfl⟩

/-- A three-voter proposal with one approval, one rejection and one
missing vote, tallied before all votes are in. -/
def demoProposal : Proposal :=
  ⟨7, "t", "", "boss", ["a1", "a2", "a3"],
   [("a1", ⟨"approve", "", ""⟩), ("a2", ⟨"reject", "", ""⟩)],
   "open", "", none, none⟩

/-- C8 witness: on `demoProposal` (3 registered voters, 1 approve,
1 reject, 1 missing) `tally` reports the Pending string with the
remaining-voter count and keeps the proposal open. -/
theorem tally_majority_witness :
    (demoProposal.status = "open" ∧
     (demoProposal.votes.map Prod.fst).Nodup ∧
     (∀ kv ∈ demoProposal.votes, kv.1 ∈ demoProposal.voters) ∧
     ¬(2 * approve_count demoProposal > demoProposal.voters.length) ∧
     ¬(2 * reject_count demoProposal > demoProposal.voters.length) ∧
     demoProposal.votes.length < demoProposal.voters.length) ∧
    ((tally demoProposal "T").1.status = "open" ∧
     (tally demoProposal "T").1.closed_at = demoProposal.closed_at ∧
     (tally demoProposal "T").2 = pendingMsg (approve_count demoProposal)
       (reject_count demoProposal)
       (demoProposal.voters.length - demoProposal.votes.length) ∧
     (tally demoProposal "T").1.result = some ((tally demoProposal "T").2)) ∧
    (tally demoProposal "T").2 = "Pending (1 approve, 1 reject, 1 remaining)" :=
  ⟨⟨rfl, by decide, by decide, by decide, by decide, by decide⟩,
   (tally_majority demoProposal "T" rfl (by decide) (by decide)).2.2.2
     (by decide) (by decide) (by decide),
   by decide⟩

end Voting

/-- Characters of a string after removing leading and trailing
whitespace: Python `str.strip()`. -/
def trimChars (l : List Char) : List Char :=
  ((l.dropWhile Char.isWhitespace).reverse.dropWhile Char.isWhitespace).reverse

/-- Python `str.strip()` on strings. -/
def stripB (s : String) : String :=
  String.mk (trimChars s.toList)

/-- Python `str.lower()` on strings (ASCII case folding suffices for the
commands and patterns involved). -/
def lowerB (s : String) : String :=
  String.mk (s.toList.map Char.toLower)

namespace Tools

/-- The allowlist of program names (agent_tools.py line 77). -/
def allowed_cmds : List String := ["python", "dir", "ls", "pip", "git"]

/-- The blocklist of dangerous substrings (agent_tools.py line 82), in
source order: the first pattern found is the one reported. -/
def blocked_patterns : List String :=
  ["rm -rf", "del \x2fs", "format", "shutdown", "&&", "||", "|", ">>",
   "curl", "wget", "powershell", "cmd \x2fc"]

/-- Python `str.startswith`, on the underlying character lists. -/
def startsWithB (pre s : String) : Bool :=
  leadsList pre.toList s.toList

/-- The rejection message of the allowlist check (line 79). -/
def notAllowedMsg : String :=
  "Error: Command not allowed. Only python, dir, ls, pip, git are permitted."

/-- The rejection message of the blocklist check (line 86). -/
def blockedMsg (pat : String) : String :=
  "Error: Blocked pattern \x27" ++ pat ++ "\x27 detected in command."

/-- Outcome of the security gate of `run_command`: either an
`Error:`-prefixed rejection string returned without starting any
subprocess, or permission to run the subprocess. -/
inductive RunDecision where
  | reject (msg : String)
  | execute
deriving Repr, DecidableEq

/-- The security gate of `AgentTools.run_command` (agent_tools.py lines
76-87): first the allowlist check on `command.strip()`, then the
blocklist scan over `command.lower()` in source order.  Only when both
pass does the function reach `subprocess.run` (modelled as `.execute`). -/
def run_command (command : String) : RunDecision :=
  if !(allowed_cmds.any (fun c => startsWithB c (stripB command))) then
    .reject notAllowedMsg
  else
    match blocked_patterns.find? (fun pat => substrOf pat (lowerB command)) with
    | some pat => .reject (blockedMsg pat)
    | none => .execute

/-- Every blocklist rejection message carries the `Error:` prefix. -/
theorem blockedMsg_starts_error (pat : String) :
    startsWithB "Error:" (blockedMsg pat) = true := by
  have h1 : leadsList "Error:".toList "Error: Blocked pattern \x27".toList
      = true := by decide
  have h2 := leadsList_append _ _ pat.toList h1
  have h3 := leadsList_append _ _ ("\x27 detected in command.".toList) h2
  have hdata : (blockedMsg pat).data
      = "Error: Blocked pattern \x27".data ++ pat.data
        ++ "\x27 detected in command.".data := by
    simp only [blockedMsg]
    rw [String.data_append, String.data_append]
  show leadsList "Error:".data (blockedMsg pat).data = true
  rw [hdata]
  exact h3

/-- C4 (amended): `run_command` reaches the subprocess iff the stripped
command starts with an allowlist name AND no blocklist substring occurs in
the lowercased command; otherwise it returns an `Error:`-prefixed
rejection without running anything.  The checks are ordered
allowlist-first: `run_command("curl http://evil")` is rejected by the
allowlist miss (not the blocklist), and
`run_command("python foo.py && rm -rf /")` is rejected by the blocklist,
which reports the first matching pattern in list order (`rm -rf`, not
`&&`). -/
theorem run_command_gate (command : String) :
    (run_command command = RunDecision.execute ↔
      (allowed_cmds.any (fun c => startsWithB c (stripB command)) = true ∧
       ∀ pat ∈ blocked_patterns, substrOf pat (lowerB command) = false)) ∧
    (∀ msg, run_command command = RunDecision.reject msg →
      startsWithB "Error:" msg = true) := by
  by_cases hallow : allowed_cmds.any (fun c => startsWithB c (stripB command)) = true
  · cases hfind : blocked_patterns.find? (fun pat => substrOf pat (lowerB command)) with
    | none =>
      have hexec : run_command command = RunDecision.execute := by
        simp [run_command, hallow, hfind]
      constructor
      · simp only [hexec, true_iff]
        refine ⟨hallow, ?_⟩
        intro pat hpat
        have := List.find?_eq_none.mp hfind pat hpat
        simpa using this
      · intro msg hmsg
        rw [hexec] at hmsg
        exact absurd hmsg (by simp)
    | some pat =>
      have hrej : run_command command = RunDecision.reject (blockedMsg pat) := by
        simp [run_command, hallow, hfind]
      have hmem := List.mem_of_find?_eq_some hfind
      have hsub := List.find?_some hfind
      constructor
      · rw [hrej]
        constructor
        · intro habs
          exact absurd habs (by simp)
        · intro hand
          have := hand.2 pat hmem
          rw [this] at hsub
          exact absurd hsub (by simp)
      · intro msg hmsg
        rw [hrej] at hmsg
        have hmsgeq : msg = blockedMsg pat := by
          cases hmsg
          rfl
        rw [hmsgeq]
        exact blockedMsg_starts_error pat
  · have hrej : run_command command = RunDecision.reject notAllowedMsg := by
      simp [run_command, hallow]
    constructor
    · rw [hrej]
      constructor
      · intro habs
        exact absurd habs (by simp)
      · intro hand
        exact absurd hand.1 hallow
    · intro msg hmsg
      rw [hrej] at hmsg
      have hmsgeq : msg = notAllowedMsg := by
        cases hmsg
        rfl
      rw [hmsgeq]
      decide

/-- C4 counterexample: `run_command("curl http://evil")` is rejected by
the ALLOWLIST check (its message is the allowlist message, not a
blocked-pattern message naming `curl`), and
`run_command("python foo.py && rm -rf /")` is rejected by the blocklist
reporting `rm -rf` (first in list order), not `&&`.  Both are rejected,
but not by the mechanisms the claim names. -/
theorem run_command_msgs_cex :
    run_command "curl http:\x2f\x2fevil" = RunDecision.reject notAllowedMsg ∧
    run_command "curl http:\x2f\x2fevil"
      ≠ RunDecision.reject (blockedMsg "curl") ∧
    run_command "python foo.py && rm -rf \x2f"
      = RunDecision.reject (blockedMsg "rm -rf") ∧
    run_command "python foo.py && rm -rf \x2f"
      ≠ RunDecision.reject (blockedMsg "&&") := by
  refine ⟨by decide, by decide, by decide, by decide⟩

/-- C4 witness: an allowlisted, clean command passes the gate. -/
theorem run_command_gate_witness :
    run_command "git status" = RunDecision.execute ∧
    ((run_command "git status" = RunDecision.execute ↔
      (allowed_cmds.any (fun c => startsWithB c (stripB "git status")) = true ∧
       ∀ pat ∈ blocked_patterns, substrOf pat (lowerB "git status") = false)) ∧
     (∀ msg, run_command "git status" = RunDecision.reject msg →
       startsWithB "Error:" msg = true)) :=
  ⟨by decide, run_command_gate "git status"⟩

end Tools

namespace Tools

/-- The characters after the last path separator: `os.path.basename`. -/
def basenameChars (l : List Char) : List Char :=
  (l.reverse.takeWhile (fun c => c != '\x2f')).reverse

/-- `os.path.basename` on strings (POSIX separator). -/
def basename (p : String) : String :=
  String.mk (basenameChars p.toList)

/-- `os.path.join(a, b)` for two components (POSIX): an absolute second
component replaces the first; otherwise a separator is inserted unless
the first component is empty or already ends with one. -/
def joinPath (a b : String) : String :=
  if b.toList.head? == some '\x2f' then b
  else if a == "" || a.toList.getLast? == some '\x2f' then a ++ b
  else a ++ "\x2f" ++ b

/-- `AgentTools._get_safe_path` (agent_tools.py lines 21-25): take the
basename of the requested filename (discarding any directory components,
including `..` traversal) and join it under the workspace directory. -/
def _get_safe_path (workspace_dir filename : String) : String :=
  joinPath workspace_dir (basename filename)

/-- C5: for every filename, `_get_safe_path` (used by both `write_file`
and `read_file`) resolves to the workspace directory joined with the
BASENAME of the filename: the resolved path is the workspace directory
plus a single separator plus a component containing no separator at all,
so directory traversal is neutralized by basename collapse, not by
rejection. -/
theorem get_safe_path_collapse (w f : String)
    (hw : w ≠ "") (hsl : w.toList.getLast? ≠ some '\x2f') :
    (∀ c ∈ (basename f).toList, c ≠ '\x2f') ∧
    _get_safe_path w f = w ++ "\x2f" ++ basename f := by
  have hnosl : ∀ c ∈ (basename f).toList, c ≠ '\x2f' := by
    intro c hc
    have hc' : c ∈ f.toList.reverse.takeWhile (fun c => c != '\x2f') := by
      have : (basename f).toList = basenameChars f.toList := rfl
      rw [this, basenameChars, List.mem_reverse] at hc
      exact hc
    have := List.mem_takeWhile_imp hc'
    simpa using this
  refine ⟨hnosl, ?_⟩
  have habs : ((basename f).toList.head? == some '\x2f') = false := by
    cases hh : (basename f).toList.head? with
    | none => rfl
    | some c =>
      have hmem := List.mem_of_mem_head? hh
      have := hnosl c hmem
      simpa using this
  have hempty : (w == "") = false := beq_eq_false_iff_ne.mpr hw
  have hlast : (w.toList.getLast? == some '\x2f') = false :=
    beq_eq_false_iff_ne.mpr hsl
  simp only [_get_safe_path, joinPath, habs, hempty, hlast, Bool.or_self,
    Bool.false_eq_true, if_false]

/-- C5 witness: `write_file("../../etc/passwd", ...)` resolves inside the
workspace, to `<workspace>/passwd`. -/
theorem get_safe_path_collapse_witness :
    (("\x2fworkspace" : String) ≠ "" ∧
     ("\x2fworkspace" : String).toList.getLast? ≠ some '\x2f') ∧
    ((∀ c ∈ (basename "..\x2f..\x2fetc\x2fpasswd").toList, c ≠ '\x2f') ∧
     _get_safe_path "\x2fworkspace" "..\x2f..\x2fetc\x2fpasswd"
       = "\x2fworkspace" ++ "\x2f" ++ basename "..\x2f..\x2fetc\x2fpasswd") ∧
    basename "..\x2f..\x2fetc\x2fpasswd" = "passwd" ∧
    _get_safe_path "\x2fworkspace" "..\x2f..\x2fetc\x2fpasswd"
      = "\x2fworkspace\x2fpasswd" :=
  ⟨⟨by decide, by decide⟩,
   get_safe_path_collapse "\x2fworkspace" "..\x2f..\x2fetc\x2fpasswd"
     (by decide) (by decide),
   by decide, by decide⟩

end Tools

namespace LLM

/-- Outcome of one attempt of `self.client.chat.completions.create`
(llm_client.py line 150): either a successful completion with content, or
an exception whose message is recorded. -/
inductive ApiOutcome where
  | ok (content : String)
  | exn (msg : String)
deriving Repr, DecidableEq

/-- The rate-limit test of `chat_completion` (line 183):
`"rate_limit" in error_str.lower() or "429" in error_str`.  Note the
`429` test is on the original (un-lowercased) message. -/
def isRateLimitErr (m : String) : Bool :=
  substrOf "rate_limit" (lowerB m) || substrOf "429" m

/-- `DeepSeekClient.chat_completion` (llm_client.py lines 149-188) run
against a trace of successive API outcomes.  On success the content is
returned; on an exception that matches the rate-limit test the code
sleeps 10 seconds and calls itself again (lines 184-186) — an unbounded
recursive retry, modelled by consuming the next trace entry; on any other
exception the error is swallowed into an `Error communicating with AI:`
string returned as if it were model output (line 188).  Returns the
result paired with the number of API attempts consumed; `none` means the
finite trace was exhausted while the code was still retrying. -/
def chat_completion : List ApiOutcome → Option (String × Nat)
  | [] => none
  | ApiOutcome.ok c :: _ => some (c, 1)
  | ApiOutcome.exn m :: rest =>
    if isRateLimitErr m then
      (chat_completion rest).map (fun p => (p.1, p.2 + 1))
    else
      some ("Error communicating with AI: " ++ m, 1)

/-- C3 counterexample: two consecutive rate-limit errors followed by a
success make THREE attempts (two sleep-and-retry cycles), refuting
"retries exactly once": the retry is an uncapped recursive call. -/
theorem chat_completion_retry_cex :
    chat_completion [ApiOutcome.exn "429 Too Many Requests",
      ApiOutcome.exn "429 Too Many Requests", ApiOutcome.ok "hi"]
      = some ("hi", 3) ∧ ¬(3 ≤ 2) :=
  ⟨by decide, by decide⟩

/-- C3 (amended): on an exception whose message contains `rate_limit`
(case-insensitively) or `429`, `chat_completion` sleeps 10 seconds and
calls itself again with NO retry cap — each consecutive rate-limit error
adds one more attempt, however many occur; on any other exception it
returns `Error communicating with AI: <msg>` as if it were model output
(never raising); on success it returns the model content. -/
theorem chat_completion_retries (pre : List String) (rest : List ApiOutcome)
    (hpre : ∀ m ∈ pre, isRateLimitErr m = true) :
    (chat_completion (pre.map ApiOutcome.exn ++ rest)
      = (chat_completion rest).map (fun p => (p.1, p.2 + pre.length))) ∧
    (∀ m rest2, isRateLimitErr m = false →
      chat_completion (ApiOutcome.exn m :: rest2)
        = some ("Error communicating with AI: " ++ m, 1)) ∧
    (∀ c rest2, chat_completion (ApiOutcome.ok c :: rest2) = some (c, 1)) := by
  refine ⟨?_, ?_, ?_⟩
  · induction pre with
    | nil =>
      simp only [List.map_nil, List.nil_append, List.length_nil]
      cases chat_completion rest with
      | none => rfl
      | some p => simp
    | cons m ms ih =>
      have hm := hpre m (List.mem_cons_self m ms)
      have ihm := ih (fun x hx => hpre x (List.mem_cons_of_mem m hx))
      simp only [List.map_cons, List.cons_append, chat_completion, hm, if_true,
        List.append_eq, List.length_cons]
      rw [ihm]
      cases chat_completion rest with
      | none => rfl
      | some p =>
        simp [Nat.add_assoc]
  · intro m rest2 hm
    simp [chat_completion, hm]
  · intro c rest2
    rfl

/-- C3 witness: two rate-limit errors (`rate_limit` spelled out and a
bare HTTP 429) then a success: four attempts total happen on a trace that
prepends those errors to a one-success trace. -/
theorem chat_completion_retries_witness :
    ((∀ m ∈ ["rate_limit reached", "HTTP 429"], isRateLimitErr m = true) ∧
     chat_completion (["rate_limit reached", "HTTP 429"].map ApiOutcome.exn
         ++ [ApiOutcome.ok "done"])
       = (chat_completion [ApiOutcome.ok "done"]).map
           (fun p => (p.1, p.2 + (["rate_limit reached", "HTTP 429"] : List String).length))) ∧
    chat_completion [ApiOutcome.exn "rate_limit reached",
      ApiOutcome.exn "HTTP 429", ApiOutcome.ok "done"] = some ("done", 3) :=
  ⟨⟨by decide,
    (chat_completion_retries ["rate_limit reached", "HTTP 429"]
      [ApiOutcome.ok "done"] (by decide)).1⟩,
   by decide⟩

end LLM

namespace Agent

/-- Oracle for one round of `BaseAgent.execute_with_retry` (base_agent.py
lines 328-373): the `think` output, the `act` result, the
`_auto_run_code` result, and the files found missing by
`validate_output` (which is valid iff nothing is missing). -/
structure RoundEnv where
  thought : String
  actionResult : String
  codeRunResult : String
  missingFiles : List String
deriving Repr, DecidableEq

/-- The invalid-validation reason of `validate_output` (base_agent.py
line 407): `f"Expected files not found: {', '.join(missing)}"`. -/
def validationReason (missing : List String) : String :=
  "Expected files not found: " ++ String.intercalate ", " missing

/-- Outcome of the round loop: early return with success, or fall
through the `for` loop with the accumulated `last_error` and outputs. -/
inductive LoopOut where
  | success (output : String) (round : Nat)
  | exhausted (lastErr : Option String) (outputs : List String)
deriving Repr, DecidableEq

/-- The `for round_num in range(1, max_rounds + 1)` loop of
`execute_with_retry` (lines 328-373), one constructor call per round:
a failed or error-marked think result, an `Error`-marked act result, an
`Error`/`Traceback`-marked code run, or a failed validation each set
`last_error` and continue; a valid round returns success with the joined
outputs (or the truncated thought when no output accumulated) and the
current round number. -/
def runRounds (envs : Nat → RoundEnv) :
    Nat → Nat → Option String → List String → LoopOut
  | _, 0, lastErr, outputs => LoopOut.exhausted lastErr outputs
  | roundNum, rem + 1, _, outputs =>
    let env := envs roundNum
    if env.thought == "" || substrOf "Error thinking" env.thought then
      runRounds envs (roundNum + 1) rem
        (some ("Thinking failed: " ++ env.thought)) outputs
    else
      let outputs1 := if env.actionResult == "" then outputs
        else outputs ++ [env.actionResult]
      if env.actionResult != "" && substrOf "Error" env.actionResult then
        runRounds envs (roundNum + 1) rem (some env.actionResult) outputs1
      else
        let outputs2 := if env.codeRunResult == "" then outputs1
          else outputs1 ++ [env.codeRunResult]
        if env.codeRunResult != ""
            && (substrOf "Error" env.codeRunResult
              || substrOf "Traceback" env.codeRunResult) then
          runRounds envs (roundNum + 1) rem
            (some ("Code execution failed:\n" ++ env.codeRunResult)) outputs2
        else
          if env.missingFiles.isEmpty then
            LoopOut.success
              (if outputs2.isEmpty then takeB env.thought 500
                else String.intercalate "\n" outputs2)
              roundNum
          else
            runRounds envs (roundNum + 1) rem
              (some (validationReason env.missingFiles)) outputs2

/-- The dictionary returned by `execute_with_retry`. -/
structure RetryResult where
  status : String
  output : String
  error : Option String
  rounds : Nat
deriving Repr, DecidableEq

/-- `BaseAgent.execute_with_retry` (base_agent.py lines 310-385) with the
agent memory present: run the round loop from round 1; on success return
status `"success"` with no error and the succeeding round number; on
exhaustion return status `"partial"`, the last error and
`rounds = max_rounds`, and (when the last error is truthy) record the
failure into the agent memory via `remember_failure` (line 378). -/
def execute_with_retry (envs : Nat → RoundEnv) (task : String)
    (maxRounds : Nat) (mem : List Memory.FailureRecord) (now : String) :
    RetryResult × List Memory.FailureRecord :=
  match runRounds envs 1 maxRounds none [] with
  | LoopOut.success out r =>
    ({ status := "success", output := out, error := none, rounds := r }, mem)
  | LoopOut.exhausted lastErr outputs =>
    let res : RetryResult :=
      { status := "partial",
        output := if outputs.isEmpty
          then s!"Completed with issues after {maxRounds} rounds"
          else String.intercalate "\n" outputs,
        error := lastErr,
        rounds := maxRounds }
    match lastErr with
    | some e =>
      if e == "" then (res, mem)
      else (res, Memory.remember_failure mem (takeB task 100) (takeB e 300)
        maxRounds now)
    | none => (res, mem)

/-- A successful exit of the round loop happens at a round between the
starting round and the fuel bound. -/
theorem runRounds_success_bound (envs : Nat → RoundEnv) :
    ∀ rem roundNum lastErr outputs out r,
      runRounds envs roundNum rem lastErr outputs = LoopOut.success out r →
      roundNum ≤ r ∧ r < roundNum + rem := by
  intro rem
  induction rem with
  | zero =>
    intro roundNum lastErr outputs out r h
    exact absurd h (by simp [runRounds])
  | succ n ih =>
    intro roundNum lastErr outputs out r h
    simp only [runRounds] at h
    split at h
    · have := ih _ _ _ _ _ h
      omega
    · split at h
      · have := ih _ _ _ _ _ h
        omega
      · split at h
        · have := ih _ _ _ _ _ h
          omega
        · split at h
          · cases h
            omega
          · have := ih _ _ _ _ _ h
            omega

/-- When the round loop exhausts at least one round, the final
`last_error` is a nonempty string: every continue path stores one. -/
theorem runRounds_exhausted_err (envs : Nat → RoundEnv) :
    ∀ rem roundNum lastErr outputs le outs,
      1 ≤ rem →
      runRounds envs roundNum rem lastErr outputs
        = LoopOut.exhausted le outs →
      ∃ e, le = some e ∧ e ≠ "" := by
  intro rem
  induction rem with
  | zero =>
    intro _ _ _ _ _ hpos _
    omega
  | succ n ih =>
    intro roundNum lastErr outputs le outs _ h
    simp only [runRounds] at h
    split at h
    · cases n with
      | zero =>
        simp only [runRounds] at h
        cases h
        exact ⟨_, rfl, append_ne_empty_left _ _ (by decide)⟩
      | succ k => exact ih _ _ _ _ _ (by omega) h
    · split at h
      · rename_i hc2
        cases n with
        | zero =>
          simp only [runRounds] at h
          have hne : (envs roundNum).actionResult ≠ "" := by
            have hand := (Bool.and_eq_true _ _).mp hc2
            simpa using hand.1
          cases h
          exact ⟨_, rfl, hne⟩
        | succ k => exact ih _ _ _ _ _ (by omega) h
      · split at h
        · cases n with
          | zero =>
            simp only [runRounds] at h
            cases h
            exact ⟨_, rfl, append_ne_empty_left _ _ (by decide)⟩
          | succ k => exact ih _ _ _ _ _ (by omega) h
        · split at h
          · exact LoopOut.noConfusion h
          · cases n with
            | zero =>
              simp only [runRounds] at h
              cases h
              exact ⟨_, rfl, append_ne_empty_left _ _ (by decide)⟩
            | succ k => exact ih _ _ _ _ _ (by omega) h

end Agent

namespace Agent

/-- C2: for every environment, task and `max_rounds = N ≥ 1`,
`execute_with_retry` terminates (it is a total function of the round
oracle), runs at most `N` rounds (`rounds ≤ N`, and `rounds` counts the
think/act cycles executed), returns a result whose status is `"success"`
or `"partial"` (tool-level failures become `last_error` strings and never
escape), and exhausting all `N` rounds yields status `"partial"` carrying
the (nonempty) last error and appends a failure record built from the
task, the truncated error and `N` to the agent memory. -/
theorem execute_with_retry_spec (envs : Nat → RoundEnv) (task : String)
    (maxRounds : Nat) (mem : List Memory.FailureRecord) (now : String)
    (hpos : 1 ≤ maxRounds) :
    ((execute_with_retry envs task maxRounds mem now).1.status = "success" ∨
     (execute_with_retry envs task maxRounds mem now).1.status = "partial") ∧
    1 ≤ (execute_with_retry envs task maxRounds mem now).1.rounds ∧
    (execute_with_retry envs task maxRounds mem now).1.rounds ≤ maxRounds ∧
    ((execute_with_retry envs task maxRounds mem now).1.status = "success" →
      (execute_with_retry envs task maxRounds mem now).2 = mem ∧
      (execute_with_retry envs task maxRounds mem now).1.error = none) ∧
    ((execute_with_retry envs task maxRounds mem now).1.status = "partial" →
      (execute_with_retry envs task maxRounds mem now).1.rounds = maxRounds ∧
      ∃ e, e ≠ "" ∧
        (execute_with_retry envs task maxRounds mem now).1.error = some e ∧
        (execute_with_retry envs task maxRounds mem now).2
          = Memory.remember_failure mem (takeB task 100) (takeB e 300)
              maxRounds now) := by
  cases hrun : runRounds envs 1 maxRounds none [] with
  | success out r =>
    have hb := runRounds_success_bound envs maxRounds 1 none [] out r hrun
    have he : execute_with_retry envs task maxRounds mem now =
        ({ status := "success", output := out, error := none, rounds := r },
          mem) := by
      simp only [execute_with_retry, hrun]
    rw [he]
    refine ⟨Or.inl rfl, ?_, ?_, fun _ => ⟨rfl, rfl⟩, ?_⟩
    · show 1 ≤ r
      omega
    · show r ≤ maxRounds
      omega
    · intro habs
      have habs2 : "success" = "partial" := habs
      exact absurd habs2 (by decide)
  | exhausted le outs =>
    obtain ⟨e, rfl, hne⟩ :=
      runRounds_exhausted_err envs maxRounds 1 none [] le outs hpos hrun
    have hbe : (e == "") = false := beq_eq_false_iff_ne.mpr hne
    have he : execute_with_retry envs task maxRounds mem now =
        ({ status := "partial",
           output := if outs.isEmpty
             then s!"Completed with issues after {maxRounds} rounds"
             else String.intercalate "\n" outs,
           error := some e,
           rounds := maxRounds },
         Memory.remember_failure mem (takeB task 100) (takeB e 300)
           maxRounds now) := by
      simp only [execute_with_retry, hrun, hbe, Bool.false_eq_true, if_false]
    rw [he]
    refine ⟨Or.inr rfl, hpos, Nat.le_refl _, ?_, ?_⟩
    · intro habs
      have habs2 : "partial" = "success" := habs
      exact absurd habs2 (by decide)
    · intro _
      exact ⟨rfl, e, hne, rfl, rfl⟩

/-- An environment whose every round fails at the think step. -/
def failEnv : RoundEnv := ⟨"Error thinking boom", "", "", []⟩

set_option maxRecDepth 8000 in
/-- C2 witness: with two rounds that both fail thinking,
`execute_with_retry` ends `"partial"` after exactly 2 rounds, reports the
last `Thinking failed` error, and records the failure in the (initially
empty) agent memory. -/
theorem execute_with_retry_spec_witness :
    (1 ≤ 2) ∧
    (((execute_with_retry (fun _ => failEnv) "task" 2 [] "now").1.status
        = "success" ∨
      (execute_with_retry (fun _ => failEnv) "task" 2 [] "now").1.status
        = "partial") ∧
     1 ≤ (execute_with_retry (fun _ => failEnv) "task" 2 [] "now").1.rounds ∧
     (execute_with_retry (fun _ => failEnv) "task" 2 [] "now").1.rounds ≤ 2 ∧
     ((execute_with_retry (fun _ => failEnv) "task" 2 [] "now").1.status
        = "success" →
       (execute_with_retry (fun _ => failEnv) "task" 2 [] "now").2 = [] ∧
       (execute_with_retry (fun _ => failEnv) "task" 2 [] "now").1.error
         = none) ∧
     ((execute_with_retry (fun _ => failEnv) "task" 2 [] "now").1.status
        = "partial" →
       (execute_with_retry (fun _ => failEnv) "task" 2 [] "now").1.rounds
         = 2 ∧
       ∃ e, e ≠ "" ∧
         (execute_with_retry (fun _ => failEnv) "task" 2 [] "now").1.error
           = some e ∧
         (execute_with_retry (fun _ => failEnv) "task" 2 [] "now").2
           = Memory.remember_failure [] (takeB "task" 100) (takeB e 300)
               2 "now")) ∧
    (execute_with_retry (fun _ => failEnv) "task" 2 [] "now").1.status
      = "partial" ∧
    (execute_with_retry (fun _ => failEnv) "task" 2 [] "now").2
      = [⟨"task", "Thinking failed: Error thinking boom", 2, "now"⟩] :=
  ⟨by decide,
   execute_with_retry_spec (fun _ => failEnv) "task" 2 [] "now" (by decide),
   by decide, by decide⟩

end Agent
